import Mathlib

/-!
Verification of the chunking and incremental-indexing core of a
markdown-indexing pipeline (`index_md.py` / `config.py`).

Text is modelled as `List Char` (Python `len`, slicing and concatenation on
`str` are length, `take`/`drop` and `++` on the character list).  The regular
expressions used by the source are small and fixed, so each one is embedded
as an explicit scanner whose behaviour is derived from Python `re` semantics
(leftmost match, greedy quantifiers with backtracking); the derivation is
recorded in the doc comment of each scanner.
-/

/-- Python `str.strip` / `\s` whitespace class (the ASCII part used here):
space, tab, newline, carriage return, vertical tab, form feed. -/
def pyIsSpace (c : Char) : Bool :=
  c == ' ' || c == '\t' || c == '\n' || c == '\r' || c == '\x0b' || c == '\x0c'

/-- Python `s.strip()`: remove leading and trailing whitespace. -/
def pyStrip (cs : List Char) : List Char :=
  ((cs.dropWhile pyIsSpace).reverse.dropWhile pyIsSpace).reverse

/-- Sentence-ending punctuation `[.!?]` used by the chunker's regexes. -/
def isSentPunct (c : Char) : Bool :=
  c == '.' || c == '!' || c == '?'

/-- `re.search(r"[.!?][^.!?]*$", s)` and its `.end()` (index_md.py:134-136).
The match starts at the last sentence-punctuation character of `s`; because
`[^.!?]*` is greedy and `$` accepts the end of the string, the match always
extends to the end of `s`, so `.end()` equals `len(s)` whenever any
punctuation occurs, and there is no match otherwise. -/
def searchEnd (cs : List Char) : Option Nat :=
  if cs.any isSentPunct then some cs.length else none

/-- Length of the match of `r"^(#{1,6}\s+.+)$"` (with `re.MULTILINE`) when it
is attempted at the start of `cs`, assuming that position is a line start;
`none` when there is no match (index_md.py:49).

Derivation from `re` semantics: `#{1,6}` must take the whole run of leading
`#` (a shorter take leaves a `#`, which `\s` rejects), so the run length `r`
must satisfy `1 ≤ r ≤ 6`.  `\s+` then greedily takes the whitespace run
(which may include newlines), and `.+` needs at least one following
non-newline character; `$` always succeeds afterwards because `.+` stops at a
newline or at the end.  If the whitespace runs to the end of the string,
`\s+` backtracks to the largest prefix `k < w` whose following character is
not a newline, and `.+` then consumes exactly that one character. -/
def headerMatchLen (cs : List Char) : Option Nat :=
  let r := (cs.takeWhile (· == '#')).length
  if 1 ≤ r ∧ r ≤ 6 then
    let after := cs.drop r
    let w := (after.takeWhile pyIsSpace).length
    if 1 ≤ w then
      if w < after.length then
        some (r + w + ((after.drop w).takeWhile (· ≠ '\n')).length)
      else
        let tl := after.drop 1
        let m := (tl.reverse.takeWhile (· == '\n')).length
        if m < tl.length then some (r + (tl.length - m) + 1) else none
    else none
  else none

/-- `re.match(header_pattern, section, re.MULTILINE)` truthiness
(index_md.py:61): `re.match` anchors at position 0, where `^` holds. -/
def reMatchHeader (cs : List Char) : Bool :=
  (headerMatchLen cs).isSome

/-- Scanner for `re.split(r"^(#{1,6}\s+.+)$", text, flags=re.MULTILINE)`
(index_md.py:50).  `re.split` scans left to right; `^` restricts match starts
to line starts; because the pattern is one capturing group, each match is
inserted between the surrounding pieces.  After a match the scan resumes at
the match end, which is never a line start (the match ends before a newline
or at the end of the text).  A header match consumes at least three
characters, so `(c :: rest).drop n = rest.drop (n - 1)`; the recursion is
phrased on `rest` for termination. -/
def reSplitGo (cs : List Char) (atLineStart : Bool) (acc : List Char) :
    List (List Char) :=
  match cs with
  | [] => [acc.reverse]
  | c :: rest =>
    if atLineStart then
      match headerMatchLen (c :: rest) with
      | some n =>
        acc.reverse :: (c :: rest).take n :: reSplitGo (rest.drop (n - 1)) false []
      | none => reSplitGo rest (c == '\n') (c :: acc)
    else reSplitGo rest (c == '\n') (c :: acc)
termination_by cs.length
decreasing_by
  all_goals simp [List.length_drop]
  omega

/-- `sections = re.split(header_pattern, text, flags=re.MULTILINE)`
(index_md.py:50); position 0 is a line start. -/
def reSplitHeader (cs : List Char) : List (List Char) :=
  reSplitGo cs true []

/-- Scanner for `re.split(r"(?<=[.!?])\s+", s)` (index_md.py:82): split at
every maximal whitespace run immediately preceded by sentence punctuation;
the separator (no capturing group) is dropped.  `prev` is the character
before the scan position.  The run starts with `c`, so it is nonempty and
dropping it from `c :: rest` is `rest.drop (run.length - 1)`; the character
before the resumed scan position is whitespace, never sentence punctuation,
so the lookbehind cannot fire there and `prev := none` is equivalent. -/
def sentSplitGo (cs : List Char) (prev : Option Char) (acc : List Char) :
    List (List Char) :=
  match cs with
  | [] => [acc.reverse]
  | c :: rest =>
    if (match prev with | some p => isSentPunct p | none => false) && pyIsSpace c then
      let run := (c :: rest).takeWhile pyIsSpace
      acc.reverse :: sentSplitGo (rest.drop (run.length - 1)) none []
    else sentSplitGo rest (some c) (c :: acc)
termination_by cs.length
decreasing_by
  all_goals simp [List.length_drop]
  omega

/-- `sentences = re.split(r"(?<=[.!?])\s+", current_chunk)` (index_md.py:82);
there is no character before position 0. -/
def sentenceSplit (cs : List Char) : List (List Char) :=
  sentSplitGo cs none []

/-- `for start in range(0, len(current_chunk), size): current_chunk[start:start+size]`
(index_md.py:85-86): the fixed-size slices of `cs`.  For a nonempty list the
first slice is `take size` and the rest are the slices of `drop size`
(`rest.drop (size - 1)` for termination).  Python's `range` raises on step 0;
the `size = 0` guard is never reached for the configurations considered. -/
def fixedSlices (cs : List Char) (size : Nat) : List (List Char) :=
  match cs with
  | [] => []
  | c :: rest =>
    if size = 0 then []
    else (c :: rest).take size :: fixedSlices (rest.drop (size - 1)) size
termination_by cs.length
decreasing_by
  simp [List.length_drop]
  omega

/-- Provenance tag of a chunk: the `"type"` strings of index_md.py
(the spec's kind enum names the `single_chunk` tag `whole`). -/
inductive ChunkType where
  | single_chunk
  | «section»
  | content
  | final
  | windowed
deriving DecidableEq, Repr

/-- One chunk dictionary produced by `smart_chunk_markdown`: its `"text"`,
its `"type"`, and its `"headers"` key — `none` models a dictionary without
the key (the short-circuit chunk at index_md.py:46 has no `"headers"`). -/
structure Chunk where
  text : List Char
  type : ChunkType
  headers : Option (List (List Char))
deriving DecidableEq, Repr

/-- The loop state of the section loop (index_md.py:52-54):
`chunks`, `current_chunk`, `current_headers`. -/
structure BuildState where
  chunks : List Chunk
  current_chunk : List Char
  current_headers : List (List Char)
deriving DecidableEq, Repr

/-- One iteration of the sentence-accumulation loop (index_md.py:95-107),
acting on the pair `(chunks emitted so far, temp_chunk)`. -/
def tempStep (size min_size : Nat) (hdrs : List (List Char))
    (acc : List Chunk × List Char) (sentence : List Char) :
    List Chunk × List Char :=
  if (acc.2 ++ sentence).length ≤ size then
    (acc.1, acc.2 ++ sentence ++ [' '])
  else
    (if ¬(pyStrip acc.2).isEmpty ∧ min_size ≤ acc.2.length then
      acc.1 ++ [{ text := pyStrip acc.2, type := ChunkType.content,
                  headers := some hdrs }]
    else acc.1,
     sentence ++ [' '])

/-- One iteration of the section loop (index_md.py:56-107). -/
def buildStep (size min_size max_size : Nat) (st : BuildState)
    (s : List Char) : BuildState :=
  if (pyStrip s).isEmpty then st
  else if reMatchHeader s then
    { chunks :=
        if ¬(pyStrip st.current_chunk).isEmpty ∧ min_size ≤ st.current_chunk.length
        then st.chunks ++ [{ text := pyStrip st.current_chunk,
                             type := ChunkType.«section»,
                             headers := some st.current_headers }]
        else st.chunks,
      current_chunk := s ++ ['\n', '\n'],
      current_headers := [pyStrip s] }
  else
    let cur := st.current_chunk ++ s ++ ['\n', '\n']
    if max_size < cur.length then
      if (sentenceSplit cur).length == 1 then
        { chunks := st.chunks ++ (fixedSlices cur size).filterMap (fun sl =>
            if min_size ≤ (pyStrip sl).length then
              some { text := pyStrip sl, type := ChunkType.content,
                     headers := some st.current_headers }
            else none),
          current_chunk := [],
          current_headers := st.current_headers }
      else
        let r := (sentenceSplit cur).foldl (tempStep size min_size st.current_headers) ([], [])
        { chunks := st.chunks ++ r.1,
          current_chunk := r.2,
          current_headers := st.current_headers }
    else
      { st with current_chunk := cur }

/-- The whole section loop (index_md.py:52-107) from the empty state. -/
def buildFold (size min_size max_size : Nat) (sections : List (List Char)) :
    BuildState :=
  sections.foldl (buildStep size min_size max_size)
    { chunks := [], current_chunk := [], current_headers := [] }

/-- The trailing flush (index_md.py:109-117). -/
def finalFlush (min_size : Nat) (st : BuildState) : List Chunk :=
  if ¬(pyStrip st.current_chunk).isEmpty ∧ min_size ≤ st.current_chunk.length then
    st.chunks ++ [{ text := pyStrip st.current_chunk, type := ChunkType.final,
                    headers := some st.current_headers }]
  else st.chunks

/-- `end = min(start + size, len(text))` (index_md.py:129). -/
def windowEnd (txt : List Char) (size start : Nat) : Nat :=
  min (start + size) txt.length

/-- The right edge after the sentence-boundary adjustment
(index_md.py:133-137): when the edge is not the end of the text and the
window contains sentence punctuation, `end` becomes
`start + last_sentence.end()`.  (`searchEnd` shows this is `start` plus the
window length, i.e. the edge is unchanged.) -/
def windowEnd2 (txt : List Char) (size start : Nat) : Nat :=
  if windowEnd txt size start < txt.length then
    match searchEnd ((txt.drop start).take (windowEnd txt size start - start)) with
    | some n => start + n
    | none => windowEnd txt size start
  else windowEnd txt size start

/-- `chunk_text = text[start:end]` with the adjusted edge (index_md.py:137). -/
def windowCut (txt : List Char) (size start : Nat) : List Char :=
  (txt.drop start).take (windowEnd2 txt size start - start)

/-- `next_start = end - overlap`, forced to advance at least one character
(index_md.py:146-150).  Python's `end - overlap` may be a negative `int`;
`next_start <= start` holds there exactly when the truncated `Nat`
subtraction is `≤ start`, so `Nat` subtraction is faithful here. -/
def windowNext (txt : List Char) (size overlap start : Nat) : Nat :=
  if windowEnd2 txt size start - overlap ≤ start then start + 1
  else windowEnd2 txt size start - overlap

/-- The sliding-window loop over one oversized chunk (index_md.py:127-152),
emitting the windowed chunks; `hdrs` is the parent chunk's `"headers"`
value, passed through unchanged (index_md.py:143). -/
def windowLoop (txt : List Char) (hdrs : Option (List (List Char)))
    (size overlap min_size : Nat) (start : Nat) : List Chunk :=
  if start < txt.length then
    (if min_size ≤ (windowCut txt size start).length then
      [{ text := pyStrip (windowCut txt size start), type := ChunkType.windowed,
         headers := hdrs }]
    else [])
    ++ windowLoop txt hdrs size overlap min_size (windowNext txt size overlap start)
  else []
termination_by txt.length - start
decreasing_by
  simp [windowNext]
  split
  · omega
  · omega

/-- The successive values taken by `start` in the sliding-window loop
(index_md.py:127-152): one entry per loop iteration. -/
def windowStarts (txt : List Char) (size overlap : Nat) (start : Nat) :
    List Nat :=
  if start < txt.length then
    start :: windowStarts txt size overlap (windowNext txt size overlap start)
  else []
termination_by txt.length - start
decreasing_by
  simp [windowNext]
  split
  · omega
  · omega

/-- The final pass (index_md.py:119-152): chunks within `max_size` pass
through; oversized ones are re-split by the sliding window. -/
def windowPass (size overlap min_size max_size : Nat) (chunks : List Chunk) :
    List Chunk :=
  chunks.foldl (fun acc cd =>
    if cd.text.length ≤ max_size then acc ++ [cd]
    else acc ++ windowLoop cd.text cd.headers size overlap min_size 0) []

/-- `smart_chunk_markdown(text, size, overlap, min_size, max_size)`
(index_md.py:25-154). -/
def smart_chunk_markdown (text : List Char)
    (size overlap min_size max_size : Nat) : List Chunk :=
  if text.length ≤ size then
    [{ text := text, type := ChunkType.single_chunk, headers := none }]
  else
    windowPass size overlap min_size max_size
      (finalFlush min_size
        (buildFold size min_size max_size (reSplitHeader text)))

/-- The byte/character string hashed by `hash_chunk` (index_md.py:173):
the source path concatenated with the chunk text, with no separator. -/
def preHashInput (filepath chunk : List Char) : List Char :=
  filepath ++ chunk

/-- `hash_chunk(filepath, chunk) = sha256((filepath + chunk).encode()).hexdigest()`
(index_md.py:171-173).  The SHA-256 digest is an arbitrary deterministic
function of the pre-hash input, taken as a parameter: every claim at stake
is "up to cryptographic-hash collision", i.e. about the pre-hash input. -/
def hash_chunk (sha256 : List Char → List Char) (filepath chunk : List Char) :
    List Char :=
  sha256 (preHashInput filepath chunk)

/-- The per-document deduplication filter (index_md.py:252-259): pair each
chunk with its fingerprint and keep those whose fingerprint is not in the
snapshot of already-indexed ids. -/
def newChunksOf (sha256 : List Char → List Char)
    (indexed_ids : List (List Char)) (filepath : List Char)
    (chunk_data : List Chunk) : List (List Char × Chunk) :=
  (chunk_data.map (fun cd => (hash_chunk sha256 filepath cd.text, cd))).filter
    (fun p => ¬ indexed_ids.contains p.1)

/-- `os.path.basename` for POSIX paths (index_md.py:275). -/
def pathBasename (p : List Char) : List Char :=
  (p.reverse.takeWhile (· ≠ '/')).reverse

/-- `sep.join(parts)`. -/
def joinSep (sep : List Char) : List (List Char) → List Char
  | [] => []
  | [x] => x
  | x :: y :: xs => x ++ sep ++ joinSep sep (y :: xs)

/-- The `"headers"` display string (index_md.py:276-280): empty when the
key is missing or the list is empty, else the lines joined by `" | "`. -/
def headersDisplay : Option (List (List Char)) → List Char
  | none => []
  | some [] => []
  | some (h :: hs) => joinSep [' ', '|', ' '] (h :: hs)

/-- The metadata dictionary written with each submitted chunk
(index_md.py:268-282). -/
structure Metadata where
  source : List Char
  chunk_index : Nat
  chunk_type : ChunkType
  chunk_size : Nat
  filename : List Char
  headers : List Char
deriving DecidableEq, Repr

/-- `for i, chunk_meta in enumerate(chunk_metas)` over the filtered
(new) chunks (index_md.py:268-282). -/
def buildMetadatas (filepath : List Char)
    (new_chunks : List (List Char × Chunk)) : List Metadata :=
  new_chunks.enum.map (fun ic =>
    { source := filepath,
      chunk_index := ic.1,
      chunk_type := ic.2.2.type,
      chunk_size := ic.2.2.text.length,
      filename := pathBasename filepath,
      headers := headersDisplay ic.2.2.headers })

/-- `windowItem`: what the final pass does with one chunk (proof view of
`windowPass`'s loop body). -/
def windowItem (size overlap min_size max_size : Nat) (cd : Chunk) : List Chunk :=
  if cd.text.length ≤ max_size then [cd]
  else windowLoop cd.text cd.headers size overlap min_size 0

theorem pyStrip_length_le (cs : List Char) : (pyStrip cs).length ≤ cs.length := by
  unfold pyStrip
  have h1 := (List.dropWhile_sublist (p := pyIsSpace) (l := cs)).length_le
  have h2 := (List.dropWhile_sublist (p := pyIsSpace)
    (l := (cs.dropWhile pyIsSpace).reverse)).length_le
  simp at *
  omega

theorem windowEnd2_eq (txt : List Char) (size start : Nat) :
    windowEnd2 txt size start = windowEnd txt size start := by
  unfold windowEnd2
  split
  · rename_i hlt
    cases hs : searchEnd ((txt.drop start).take (windowEnd txt size start - start)) with
    | none => rfl
    | some n =>
      unfold searchEnd at hs
      split at hs
      · simp only [Option.some.injEq] at hs
        subst hs
        simp only [List.length_take, List.length_drop]
        unfold windowEnd at *
        omega
      · exact absurd hs (by simp)
  · rfl

theorem windowCut_length_le (txt : List Char) (size start : Nat) :
    (windowCut txt size start).length ≤ size := by
  unfold windowCut
  rw [windowEnd2_eq]
  simp only [List.length_take, List.length_drop]
  unfold windowEnd
  omega

theorem windowNext_gt (txt : List Char) (size overlap start : Nat) :
    start < windowNext txt size overlap start := by
  unfold windowNext
  split
  · omega
  · omega

theorem windowLoop_mem (txt : List Char) (hdrs : Option (List (List Char)))
    (size overlap min_size : Nat) (start : Nat) :
    ∀ c ∈ windowLoop txt hdrs size overlap min_size start,
      c.headers = hdrs ∧ c.type = ChunkType.windowed ∧ c.text.length ≤ size := by
  induction start using windowLoop.induct txt hdrs size overlap min_size with
  | case1 x hx ih =>
    intro c hc
    rw [windowLoop] at hc
    simp only [if_pos hx] at hc
    rcases List.mem_append.mp hc with h | h
    · split at h
      · rcases List.mem_singleton.mp h with rfl
        refine ⟨rfl, rfl, ?_⟩
        exact le_trans (pyStrip_length_le _) (windowCut_length_le txt size x)
      · exact absurd h (List.not_mem_nil c)
    · exact ih c h
  | case2 x hx =>
    intro c hc
    rw [windowLoop] at hc
    simp only [if_neg hx] at hc
    exact absurd hc (List.not_mem_nil c)

theorem windowStarts_chain (txt : List Char) (size overlap : Nat) (start : Nat) :
    List.Chain' (· < ·) (windowStarts txt size overlap start) := by
  induction start using windowStarts.induct txt size overlap with
  | case1 x hx ih =>
    rw [windowStarts]
    simp only [if_pos hx]
    refine List.chain'_cons'.mpr ⟨?_, ih⟩
    intro y hy
    rw [windowStarts] at hy
    split at hy
    · simp only [List.head?_cons, Option.mem_def, Option.some.injEq] at hy
      subst hy
      exact windowNext_gt txt size overlap x
    · exact absurd hy (by simp)
  | case2 x hx =>
    rw [windowStarts]
    simp [if_neg hx]

theorem windowStarts_length_le (txt : List Char) (size overlap : Nat)
    (start : Nat) :
    (windowStarts txt size overlap start).length ≤ txt.length - start := by
  induction start using windowStarts.induct txt size overlap with
  | case1 x hx ih =>
    rw [windowStarts]
    simp only [if_pos hx, List.length_cons]
    have := windowNext_gt txt size overlap x
    omega
  | case2 x hx =>
    rw [windowStarts]
    simp [if_neg hx]

theorem windowPass_foldl_general (size overlap min_size max_size : Nat)
    (l : List Chunk) :
    ∀ init : List Chunk,
      l.foldl (fun acc cd =>
        if cd.text.length ≤ max_size then acc ++ [cd]
        else acc ++ windowLoop cd.text cd.headers size overlap min_size 0) init
      = init ++ l.flatMap (windowItem size overlap min_size max_size) := by
  induction l with
  | nil => intro init; simp
  | cons cd l ih =>
    intro init
    simp only [List.foldl_cons, List.flatMap_cons]
    rw [ih]
    unfold windowItem
    split
    · simp
    · simp

theorem windowPass_eq_flatMap (size overlap min_size max_size : Nat)
    (l : List Chunk) :
    windowPass size overlap min_size max_size l
      = l.flatMap (windowItem size overlap min_size max_size) := by
  unfold windowPass
  rw [windowPass_foldl_general]
  simp

theorem windowPass_append (size overlap min_size max_size : Nat)
    (l₁ l₂ : List Chunk) :
    windowPass size overlap min_size max_size (l₁ ++ l₂)
      = windowPass size overlap min_size max_size l₁
        ++ windowPass size overlap min_size max_size l₂ := by
  simp [windowPass_eq_flatMap]

theorem mem_windowPass (size overlap min_size max_size : Nat)
    (l : List Chunk) (c : Chunk)
    (hc : c ∈ windowPass size overlap min_size max_size l) :
    ∃ cd ∈ l, (cd.text.length ≤ max_size ∧ c = cd)
      ∨ (¬ cd.text.length ≤ max_size
          ∧ c ∈ windowLoop cd.text cd.headers size overlap min_size 0) := by
  rw [windowPass_eq_flatMap] at hc
  rcases List.mem_flatMap.mp hc with ⟨cd, hcd, hmem⟩
  refine ⟨cd, hcd, ?_⟩
  unfold windowItem at hmem
  split at hmem
  · exact Or.inl ⟨by assumption, List.mem_singleton.mp hmem⟩
  · exact Or.inr ⟨by assumption, hmem⟩

theorem tempFold_mem (size min_size : Nat) (hdrs : List (List Char))
    (sentences : List (List Char)) :
    ∀ acc : List Chunk × List Char,
      ∀ c ∈ (sentences.foldl (tempStep size min_size hdrs) acc).1,
        c ∈ acc.1 ∨ (c.headers = some hdrs ∧ c.type = ChunkType.content) := by
  induction sentences with
  | nil => intro acc c hc; exact Or.inl hc
  | cons s ss ih =>
    intro acc c hc
    simp only [List.foldl_cons] at hc
    rcases ih (tempStep size min_size hdrs acc s) c hc with h | h
    · unfold tempStep at h
      split at h
      · exact Or.inl h
      · simp only at h
        split at h
        · rcases List.mem_append.mp h with h' | h'
          · exact Or.inl h'
          · rcases List.mem_singleton.mp h' with rfl
            exact Or.inr ⟨rfl, rfl⟩
        · exact Or.inl h
    · exact Or.inr h

theorem buildStep_chunks_ext (size min_size max_size : Nat) (st : BuildState)
    (s : List Char) :
    ∃ ext, (buildStep size min_size max_size st s).chunks = st.chunks ++ ext
      ∧ ∀ c ∈ ext, c.headers = some st.current_headers
          ∧ c.type ≠ ChunkType.single_chunk := by
  unfold buildStep
  split
  · exact ⟨[], by simp⟩
  split
  · -- header branch
    dsimp only
    split
    · refine ⟨_, rfl, ?_⟩
      intro c hc
      rcases List.mem_singleton.mp hc with rfl
      exact ⟨rfl, by simp⟩
    · exact ⟨[], by simp⟩
  · -- content branch
    dsimp only
    split
    · split
      · -- fixed-size slices
        dsimp only
        refine ⟨_, rfl, ?_⟩
        intro c hc
        rcases List.mem_filterMap.mp hc with ⟨sl, _, hsl⟩
        by_cases hms : min_size ≤ (pyStrip sl).length
        · rw [if_pos hms] at hsl
          injection hsl with h
          subst h
          exact ⟨rfl, by simp⟩
        · rw [if_neg hms] at hsl
          cases hsl
      · -- sentence accumulation
        dsimp only
        refine ⟨_, rfl, ?_⟩
        intro c hc
        rcases tempFold_mem size min_size st.current_headers _ _ c hc with h | h
        · exact absurd h (List.not_mem_nil c)
        · exact ⟨h.1, by rw [h.2]; simp⟩
    · exact ⟨[], by simp⟩

theorem buildStep_headers_cases (size min_size max_size : Nat)
    (st : BuildState) (s : List Char) :
    (buildStep size min_size max_size st s).current_headers = st.current_headers
    ∨ (buildStep size min_size max_size st s).current_headers = [pyStrip s] := by
  unfold buildStep
  split
  · exact Or.inl rfl
  split
  · exact Or.inr rfl
  · dsimp only
    split
    · split
      · exact Or.inl rfl
      · exact Or.inl rfl
    · exact Or.inl rfl

theorem buildStep_headers_content (size min_size max_size : Nat)
    (st : BuildState) (s : List Char) (hs : reMatchHeader s = false) :
    (buildStep size min_size max_size st s).current_headers
      = st.current_headers := by
  unfold buildStep
  split
  · rfl
  split
  · rename_i h
    rw [hs] at h
    cases h
  · dsimp only
    split
    · split
      · rfl
      · rfl
    · rfl

theorem headerMatchLen_hash (cs : List Char) (n : Nat)
    (h : headerMatchLen cs = some n) : ∃ t, cs = '#' :: t := by
  unfold headerMatchLen at h
  dsimp only at h
  split at h
  · rename_i hr
    cases cs with
    | nil => simp at hr
    | cons c t =>
      refine ⟨t, ?_⟩
      by_cases hc : c == '#'
      · simp only [beq_iff_eq] at hc
        rw [hc]
      · rw [List.takeWhile_cons, if_neg (by simpa using hc)] at hr
        simp at hr
  · cases h

theorem reMatchHeader_strip_ne (s : List Char) (hs : reMatchHeader s = true) :
    (pyStrip s).isEmpty = false := by
  unfold reMatchHeader at hs
  rw [Option.isSome_iff_exists] at hs
  rcases hs with ⟨n, hn⟩
  rcases headerMatchLen_hash s n hn with ⟨t, rfl⟩
  unfold pyStrip
  rw [List.dropWhile_cons, if_neg (by decide)]
  rw [Bool.eq_false_iff]
  intro hemp
  rw [List.isEmpty_iff, List.reverse_eq_nil_iff, List.dropWhile_eq_nil_iff] at hemp
  have := hemp '#' (by simp)
  simp [pyIsSpace] at this

theorem buildStep_header_state (size min_size max_size : Nat)
    (st : BuildState) (s : List Char) (hs : reMatchHeader s = true) :
    (buildStep size min_size max_size st s).current_headers = [pyStrip s] := by
  unfold buildStep
  rw [reMatchHeader_strip_ne s hs]
  rw [hs]
  simp

theorem foldContent (size min_size max_size : Nat) (L : List (List Char)) :
    (∀ s ∈ L, reMatchHeader s = false) →
    ∀ st : BuildState,
      (L.foldl (buildStep size min_size max_size) st).current_headers
        = st.current_headers
      ∧ ∃ ext, (L.foldl (buildStep size min_size max_size) st).chunks
          = st.chunks ++ ext
        ∧ ∀ c ∈ ext, c.headers = some st.current_headers := by
  induction L with
  | nil => intro _ st; exact ⟨rfl, [], by simp⟩
  | cons s L ih =>
    intro hL st
    have hs : reMatchHeader s = false := hL s (by simp)
    have hL2 : ∀ x ∈ L, reMatchHeader x = false := fun x hx => hL x (by simp [hx])
    simp only [List.foldl_cons]
    obtain ⟨ihH, ext2, ihC, ihP⟩ := ih hL2 (buildStep size min_size max_size st s)
    have hH1 := buildStep_headers_content size min_size max_size st s hs
    obtain ⟨ext1, hC1, hP1⟩ := buildStep_chunks_ext size min_size max_size st s
    refine ⟨by rw [ihH, hH1], ext1 ++ ext2, ?_, ?_⟩
    · rw [ihC, hC1, List.append_assoc]
    · intro c hc
      rcases List.mem_append.mp hc with h | h
      · exact (hP1 c h).1
      · have hp := ihP c h
        rw [hH1] at hp
        exact hp

theorem finalFlush_ext (min_size : Nat) (st : BuildState) :
    ∃ ext, finalFlush min_size st = st.chunks ++ ext
      ∧ ∀ c ∈ ext, c.headers = some st.current_headers
          ∧ c.type = ChunkType.final := by
  unfold finalFlush
  split
  · refine ⟨_, rfl, ?_⟩
    intro c hc
    rcases List.mem_singleton.mp hc with rfl
    exact ⟨rfl, rfl⟩
  · exact ⟨[], by simp⟩

theorem buildFold_inv (size min_size max_size : Nat) (L : List (List Char)) :
    ∀ st : BuildState,
      (st.current_headers.length ≤ 1
        ∧ ∀ c ∈ st.chunks, (∀ H, c.headers = some H → H.length ≤ 1)
            ∧ c.type ≠ ChunkType.single_chunk) →
      ((L.foldl (buildStep size min_size max_size) st).current_headers.length ≤ 1
        ∧ ∀ c ∈ (L.foldl (buildStep size min_size max_size) st).chunks,
            (∀ H, c.headers = some H → H.length ≤ 1)
            ∧ c.type ≠ ChunkType.single_chunk) := by
  induction L with
  | nil => intro st h; exact h
  | cons s L ih =>
    intro st h
    simp only [List.foldl_cons]
    refine ih (buildStep size min_size max_size st s) ⟨?_, ?_⟩
    · rcases buildStep_headers_cases size min_size max_size st s with hh | hh
      · rw [hh]; exact h.1
      · rw [hh]; simp
    · obtain ⟨ext, hC, hP⟩ := buildStep_chunks_ext size min_size max_size st s
      rw [hC]
      intro c hc
      rcases List.mem_append.mp hc with h' | h'
      · exact h.2 c h'
      · refine ⟨?_, (hP c h').2⟩
        intro H hH
        rw [(hP c h').1] at hH
        injection hH with hH
        rw [← hH]
        exact h.1

theorem buildFold_inv_all (size min_size max_size : Nat) (L : List (List Char)) :
    (buildFold size min_size max_size L).current_headers.length ≤ 1
    ∧ ∀ c ∈ (buildFold size min_size max_size L).chunks,
        (∀ H, c.headers = some H → H.length ≤ 1)
        ∧ c.type ≠ ChunkType.single_chunk := by
  unfold buildFold
  exact buildFold_inv size min_size max_size L
    { chunks := [], current_chunk := [], current_headers := [] } ⟨by simp, by simp⟩

/-- C6: a document whose length is at most `target_size` is emitted as
exactly one chunk, of the short-circuit kind (`"single_chunk"`, the spec's
`whole`), whose text is the original document text unchanged. -/
theorem c6_short_document (text : List Char)
    (size overlap min_size max_size : Nat) (h : text.length ≤ size) :
    smart_chunk_markdown text size overlap min_size max_size
      = [{ text := text, type := ChunkType.single_chunk, headers := none }] := by
  unfold smart_chunk_markdown
  rw [if_pos h]

theorem c6_witness :
    ['h','e','l','l','o'].length ≤ 1000
    ∧ smart_chunk_markdown ['h','e','l','l','o'] 1000 200 200 2000
      = [{ text := ['h','e','l','l','o'], type := ChunkType.single_chunk,
           headers := none }] :=
  ⟨by decide, c6_short_document ['h','e','l','l','o'] 1000 200 200 2000 (by decide)⟩

/-- C10: every chunk emitted by the chunker carries a headers list of length
at most 1, and short-circuit chunks carry no header context at all. -/
theorem c10_headers_at_most_one (text : List Char)
    (size overlap min_size max_size : Nat) (c : Chunk)
    (hc : c ∈ smart_chunk_markdown text size overlap min_size max_size) :
    (∀ H, c.headers = some H → H.length ≤ 1)
    ∧ (c.type = ChunkType.single_chunk → c.headers = none) := by
  unfold smart_chunk_markdown at hc
  split at hc
  · rcases List.mem_singleton.mp hc with rfl
    exact ⟨fun H hH => Option.noConfusion hH, fun _ => rfl⟩
  · obtain ⟨hinvH, hinvC⟩ := buildFold_inv_all size min_size max_size (reSplitHeader text)
    obtain ⟨ext, hFF, hFP⟩ := finalFlush_ext min_size
      (buildFold size min_size max_size (reSplitHeader text))
    rcases mem_windowPass size overlap min_size max_size _ c hc with ⟨cd, hcd, hcase⟩
    have hPcd : (∀ H, cd.headers = some H → H.length ≤ 1)
        ∧ cd.type ≠ ChunkType.single_chunk := by
      rw [hFF] at hcd
      rcases List.mem_append.mp hcd with h | h
      · exact hinvC cd h
      · obtain ⟨hh, ht⟩ := hFP cd h
        refine ⟨?_, by rw [ht]; simp⟩
        intro H hH
        rw [hh] at hH
        injection hH with hH
        rw [← hH]
        exact hinvH
    rcases hcase with ⟨_, rfl⟩ | ⟨_, hwin⟩
    · exact ⟨hPcd.1, fun ht => absurd ht hPcd.2⟩
    · obtain ⟨hh, ht, _⟩ := windowLoop_mem cd.text cd.headers size overlap min_size 0 c hwin
      refine ⟨?_, ?_⟩
      · intro H hH
        rw [hh] at hH
        exact hPcd.1 H hH
      · intro hsingle
        rw [ht] at hsingle
        cases hsingle

theorem c10_witness :
    (({ text := ['h','i'], type := ChunkType.single_chunk, headers := none } : Chunk)
        ∈ smart_chunk_markdown ['h','i'] 5 0 1 4)
    ∧ (∀ H, (none : Option (List (List Char))) = some H → H.length ≤ 1)
    ∧ (ChunkType.single_chunk = ChunkType.single_chunk →
        (none : Option (List (List Char))) = none) := by
  refine ⟨by decide, ?_, ?_⟩
  have h := c10_headers_at_most_one ['h','i'] 5 0 1 4
    { text := ['h','i'], type := ChunkType.single_chunk, headers := none } (by decide)
  · exact h.1
  · have h := c10_headers_at_most_one ['h','i'] 5 0 1 4
      { text := ['h','i'], type := ChunkType.single_chunk, headers := none } (by decide)
    exact h.2

/-- C1 (amended): every emitted chunk's trimmed text length is at most
`max_size`; the `min_size` lower bound does not hold for the trimmed text. -/
theorem c1_amended_upper_bound (text : List Char)
    (size overlap min_size max_size : Nat)
    (hmn : min_size < size) (hmx : size ≤ max_size) (c : Chunk)
    (hc : c ∈ smart_chunk_markdown text size overlap min_size max_size) :
    (pyStrip c.text).length ≤ max_size := by
  unfold smart_chunk_markdown at hc
  split at hc
  · rcases List.mem_singleton.mp hc with rfl
    calc (pyStrip text).length ≤ text.length := pyStrip_length_le text
    _ ≤ size := by assumption
    _ ≤ max_size := hmx
  · rcases mem_windowPass size overlap min_size max_size _ c hc with ⟨cd, _, hcase⟩
    rcases hcase with ⟨hle, rfl⟩ | ⟨_, hwin⟩
    · exact le_trans (pyStrip_length_le _) hle
    · obtain ⟨_, _, hlen⟩ := windowLoop_mem cd.text cd.headers size overlap min_size 0 c hwin
      exact le_trans (pyStrip_length_le _) (le_trans hlen hmx)

/-- C3 (amended): the sliding-window loop's successive starts strictly
increase, and the loop runs at most `length` iterations (not the claimed
`ceil(length / max(1, target_size - overlap))`). -/
theorem c3_amended_termination (txt : List Char) (size overlap : Nat) :
    List.Chain' (· < ·) (windowStarts txt size overlap 0)
    ∧ (windowStarts txt size overlap 0).length ≤ txt.length := by
  refine ⟨windowStarts_chain txt size overlap 0, ?_⟩
  have := windowStarts_length_le txt size overlap 0
  omega

/-- Chunk lists only grow along the section loop. -/
theorem foldChunksExtend (size min_size max_size : Nat) (L : List (List Char)) :
    ∀ st : BuildState, ∃ ext,
      (L.foldl (buildStep size min_size max_size) st).chunks = st.chunks ++ ext := by
  induction L with
  | nil => intro st; exact ⟨[], by simp⟩
  | cons s L ih =>
    intro st
    simp only [List.foldl_cons]
    obtain ⟨ext1, h1, _⟩ := buildStep_chunks_ext size min_size max_size st s
    obtain ⟨ext2, h2⟩ := ih (buildStep size min_size max_size st s)
    exact ⟨ext1 ++ ext2, by rw [h2, h1, List.append_assoc]⟩

/-- The final pass preserves a constant `headers` value: pass-through chunks
keep theirs and windowed chunks inherit the parent's. -/
theorem windowPass_headers_const (size overlap min_size max_size : Nat)
    (v : Option (List (List Char))) (l : List Chunk)
    (hl : ∀ c ∈ l, c.headers = v) :
    ∀ c ∈ windowPass size overlap min_size max_size l, c.headers = v := by
  intro c hc
  rcases mem_windowPass size overlap min_size max_size l c hc with ⟨cd, hcd, hcase⟩
  rcases hcase with ⟨_, hceq⟩ | ⟨_, hwin⟩
  · rw [hceq]
    exact hl cd hcd
  · rw [(windowLoop_mem cd.text cd.headers size overlap min_size 0 c hwin).1]
    exact hl cd hcd

/-- C9: when the section split of a document longer than `target_size` is
`pre ++ [h] ++ cs ++ rest` with `h` a header and `cs` content sections (the
region between `h` and the next header, which may head `rest`): the header
step resets the context to `[strip h]` and it stays so through `cs`; the
chunks emitted while processing `cs` form the segment `mid` pinned by
`st2.chunks = st1.chunks ++ mid`, each carrying exactly `some [strip h]`, as
do their windowed re-splits, which appear in the chunker's output directly
after the prefix `windowPass st1.chunks`; if the region runs to the end of
the document (`rest = []`) every output chunk after that prefix carries
`some [strip h]` (the trailing flush included); and when a further section
follows (`rest = hdr2 :: rest2`, e.g. the next header), the chunk flushed at
that section also carries `some [strip h]` and the output contains the
windowed `mid ++ fl` segment after the same prefix. -/
theorem c9_header_propagation (text : List Char)
    (size overlap min_size max_size : Nat) (hlen : size < text.length)
    (pre : List (List Char)) (h : List Char) (cs rest : List (List Char))
    (hsec : reSplitHeader text = pre ++ h :: (cs ++ rest))
    (hh : reMatchHeader h = true)
    (hcs : ∀ s ∈ cs, reMatchHeader s = false)
    (st0 st1 st2 : BuildState)
    (hst0 : st0 = pre.foldl (buildStep size min_size max_size)
      { chunks := [], current_chunk := [], current_headers := [] })
    (hst1 : st1 = buildStep size min_size max_size st0 h)
    (hst2 : st2 = cs.foldl (buildStep size min_size max_size) st1) :
    st1.current_headers = [pyStrip h]
    ∧ st2.current_headers = [pyStrip h]
    ∧ ∃ mid, st2.chunks = st1.chunks ++ mid
      ∧ (∀ c ∈ mid, c.headers = some [pyStrip h])
      ∧ (∀ c ∈ windowPass size overlap min_size max_size mid,
          c.headers = some [pyStrip h])
      ∧ (∃ tail1, smart_chunk_markdown text size overlap min_size max_size
          = windowPass size overlap min_size max_size st1.chunks
            ++ (windowPass size overlap min_size max_size mid ++ tail1))
      ∧ (rest = [] → ∃ out2,
          smart_chunk_markdown text size overlap min_size max_size
            = windowPass size overlap min_size max_size st1.chunks ++ out2
          ∧ ∀ c ∈ out2, c.headers = some [pyStrip h])
      ∧ (∀ hdr2 rest2, rest = hdr2 :: rest2 → ∃ fl tail2,
          (buildStep size min_size max_size st2 hdr2).chunks
            = st1.chunks ++ (mid ++ fl)
          ∧ (∀ c ∈ fl, c.headers = some [pyStrip h])
          ∧ smart_chunk_markdown text size overlap min_size max_size
            = windowPass size overlap min_size max_size st1.chunks
              ++ (windowPass size overlap min_size max_size (mid ++ fl) ++ tail2)
          ∧ ∀ c ∈ windowPass size overlap min_size max_size (mid ++ fl),
              c.headers = some [pyStrip h]) := by
  subst hst2
  subst hst1
  subst hst0
  have h1 : (buildStep size min_size max_size
      (pre.foldl (buildStep size min_size max_size)
        { chunks := [], current_chunk := [], current_headers := [] }) h).current_headers
      = [pyStrip h] :=
    buildStep_header_state size min_size max_size _ h hh
  obtain ⟨hH2, mid, hC2, hP2⟩ := foldContent size min_size max_size cs hcs
    (buildStep size min_size max_size
      (pre.foldl (buildStep size min_size max_size)
        { chunks := [], current_chunk := [], current_headers := [] }) h)
  have h2 : (cs.foldl (buildStep size min_size max_size)
      (buildStep size min_size max_size
        (pre.foldl (buildStep size min_size max_size)
          { chunks := [], current_chunk := [], current_headers := [] }) h)).current_headers
      = [pyStrip h] := by
    rw [hH2, h1]
  have hP2m : ∀ c ∈ mid, c.headers = some [pyStrip h] := by
    intro c hc
    rw [hP2 c hc, h1]
  have hbf : buildFold size min_size max_size (reSplitHeader text)
      = rest.foldl (buildStep size min_size max_size)
          (cs.foldl (buildStep size min_size max_size)
            (buildStep size min_size max_size
              (pre.foldl (buildStep size min_size max_size)
                { chunks := [], current_chunk := [], current_headers := [] }) h)) := by
    unfold buildFold
    rw [hsec, List.foldl_append, List.foldl_cons, List.foldl_append]
  refine ⟨h1, h2, mid, hC2, hP2m,
    windowPass_headers_const size overlap min_size max_size (some [pyStrip h]) mid hP2m,
    ?_, ?_, ?_⟩
  · obtain ⟨ext3, hext3⟩ := foldChunksExtend size min_size max_size rest
      (cs.foldl (buildStep size min_size max_size)
        (buildStep size min_size max_size
          (pre.foldl (buildStep size min_size max_size)
            { chunks := [], current_chunk := [], current_headers := [] }) h))
    obtain ⟨ffext, hff, _⟩ := finalFlush_ext min_size
      (rest.foldl (buildStep size min_size max_size)
        (cs.foldl (buildStep size min_size max_size)
          (buildStep size min_size max_size
            (pre.foldl (buildStep size min_size max_size)
              { chunks := [], current_chunk := [], current_headers := [] }) h)))
    refine ⟨windowPass size overlap min_size max_size (ext3 ++ ffext), ?_⟩
    have hsegs : finalFlush min_size
        (buildFold size min_size max_size (reSplitHeader text))
        = (buildStep size min_size max_size
            (pre.foldl (buildStep size min_size max_size)
              { chunks := [], current_chunk := [], current_headers := [] }) h).chunks
          ++ (mid ++ (ext3 ++ ffext)) := by
      rw [hbf, hff, hext3, hC2]
      simp [List.append_assoc]
    unfold smart_chunk_markdown
    rw [if_neg (by omega), hsegs, windowPass_append, windowPass_append]
  · intro hrest
    subst hrest
    obtain ⟨ffext, hff, hffP⟩ := finalFlush_ext min_size
      (cs.foldl (buildStep size min_size max_size)
        (buildStep size min_size max_size
          (pre.foldl (buildStep size min_size max_size)
            { chunks := [], current_chunk := [], current_headers := [] }) h))
    refine ⟨windowPass size overlap min_size max_size (mid ++ ffext), ?_, ?_⟩
    · have hsegs : finalFlush min_size
          (buildFold size min_size max_size (reSplitHeader text))
          = (buildStep size min_size max_size
              (pre.foldl (buildStep size min_size max_size)
                { chunks := [], current_chunk := [], current_headers := [] }) h).chunks
            ++ (mid ++ ffext) := by
        rw [hbf, List.foldl_nil, hff, hC2]
        simp [List.append_assoc]
      unfold smart_chunk_markdown
      rw [if_neg (by omega), hsegs, windowPass_append]
    · refine windowPass_headers_const size overlap min_size max_size
        (some [pyStrip h]) (mid ++ ffext) ?_
      intro c hc
      rcases List.mem_append.mp hc with hm | hm
      · exact hP2m c hm
      · rw [(hffP c hm).1, h2]
  · intro hdr2 rest2 hrest
    subst hrest
    obtain ⟨fl, hfl, hflP⟩ := buildStep_chunks_ext size min_size max_size
      (cs.foldl (buildStep size min_size max_size)
        (buildStep size min_size max_size
          (pre.foldl (buildStep size min_size max_size)
            { chunks := [], current_chunk := [], current_headers := [] }) h)) hdr2
    have hflPm : ∀ c ∈ fl, c.headers = some [pyStrip h] := by
      intro c hc
      rw [(hflP c hc).1, h2]
    obtain ⟨ext3, hext3⟩ := foldChunksExtend size min_size max_size rest2
      (buildStep size min_size max_size
        (cs.foldl (buildStep size min_size max_size)
          (buildStep size min_size max_size
            (pre.foldl (buildStep size min_size max_size)
              { chunks := [], current_chunk := [], current_headers := [] }) h)) hdr2)
    obtain ⟨ffext, hff, _⟩ := finalFlush_ext min_size
      (rest2.foldl (buildStep size min_size max_size)
        (buildStep size min_size max_size
          (cs.foldl (buildStep size min_size max_size)
            (buildStep size min_size max_size
              (pre.foldl (buildStep size min_size max_size)
                { chunks := [], current_chunk := [], current_headers := [] }) h)) hdr2))
    have hmidfl : ∀ c ∈ mid ++ fl, c.headers = some [pyStrip h] := by
      intro c hc
      rcases List.mem_append.mp hc with hm | hm
      · exact hP2m c hm
      · exact hflPm c hm
    refine ⟨fl, windowPass size overlap min_size max_size (ext3 ++ ffext),
      ?_, hflPm, ?_,
      windowPass_headers_const size overlap min_size max_size
        (some [pyStrip h]) (mid ++ fl) hmidfl⟩
    · rw [hfl, hC2, List.append_assoc]
    · have hsegs : finalFlush min_size
          (buildFold size min_size max_size (reSplitHeader text))
          = (buildStep size min_size max_size
              (pre.foldl (buildStep size min_size max_size)
                { chunks := [], current_chunk := [], current_headers := [] }) h).chunks
            ++ ((mid ++ fl) ++ (ext3 ++ ffext)) := by
        rw [hbf, List.foldl_cons, hff, hext3, hfl, hC2]
        simp [List.append_assoc]
      unfold smart_chunk_markdown
      rw [if_neg (by omega), hsegs, windowPass_append, windowPass_append]

/-- C5: when every chunk's fingerprint is already in the snapshot, the
deduplication filter yields the empty list (the second run adds nothing). -/
theorem c5_idempotent_filter (sha256 : List Char → List Char)
    (indexed_ids : List (List Char)) (filepath : List Char)
    (chunk_data : List Chunk)
    (hall : ∀ cd ∈ chunk_data,
      indexed_ids.contains (hash_chunk sha256 filepath cd.text) = true) :
    newChunksOf sha256 indexed_ids filepath chunk_data = [] := by
  unfold newChunksOf
  rw [List.filter_eq_nil_iff]
  intro p hp
  rcases List.mem_map.mp hp with ⟨cd, hcd, rfl⟩
  have hm := List.mem_of_elem_eq_true (hall cd hcd)
  simp [hm]

theorem c5_witness :
    (∀ cd ∈ [(⟨['a'], ChunkType.final, some []⟩ : Chunk)],
      [hash_chunk id ['f'] ['a']].contains (hash_chunk id ['f'] cd.text) = true)
    ∧ newChunksOf id [hash_chunk id ['f'] ['a']] ['f']
        [⟨['a'], ChunkType.final, some []⟩] = [] :=
  ⟨by decide,
   c5_idempotent_filter id [hash_chunk id ['f'] ['a']] ['f']
     [⟨['a'], ChunkType.final, some []⟩] (by decide)⟩

/-- C7 (amended): `chunk_index` is the 0-based position within the filtered
list of new chunks submitted for the document, not within the document's
full chunk sequence. -/
theorem c7_amended_chunk_index (filepath : List Char)
    (new_chunks : List (List Char × Chunk)) :
    (buildMetadatas filepath new_chunks).map Metadata.chunk_index
      = List.range new_chunks.length := by
  unfold buildMetadatas
  rw [List.map_map]
  have hcomp : (Metadata.chunk_index ∘ fun ic : Nat × (List Char × Chunk) =>
      ({ source := filepath, chunk_index := ic.1, chunk_type := ic.2.2.type,
         chunk_size := ic.2.2.text.length, filename := pathBasename filepath,
         headers := headersDisplay ic.2.2.headers } : Metadata))
      = Prod.fst := rfl
  rw [hcomp, List.enum_map_fst]

/-- C7 counterexample: with the first of two chunks already indexed, the
submitted second chunk (position 1 in the document's full sequence) is
written with `chunk_index = 0`. -/
theorem c7_counterexample :
    (buildMetadatas ['f']
        (newChunksOf id [hash_chunk id ['f'] ['a']] ['f']
          [{ text := ['a'], type := ChunkType.final, headers := some [] },
           { text := ['b'], type := ChunkType.final, headers := some [] }])).map
      Metadata.chunk_index = [0]
    ∧ (newChunksOf id [hash_chunk id ['f'] ['a']] ['f']
        [{ text := ['a'], type := ChunkType.final, headers := some [] },
         { text := ['b'], type := ChunkType.final, headers := some [] }]).map
        (fun p => p.2)
      = [{ text := ['b'], type := ChunkType.final, headers := some [] }]
    ∧ [({ text := ['a'], type := ChunkType.final, headers := some [] } : Chunk),
       { text := ['b'], type := ChunkType.final, headers := some [] }][1]?
      = some { text := ['b'], type := ChunkType.final, headers := some [] }
    ∧ ({ text := ['b'], type := ChunkType.final, headers := some [] } : Chunk)
      ≠ { text := ['a'], type := ChunkType.final, headers := some [] } := by
  refine ⟨by decide, by decide, by decide, by decide⟩

/-- C4 (amended): the fingerprint is deterministic, and the pre-hash inputs
of two pairs differ whenever the source paths have equal length and the
pairs differ; without that restriction the unseparated concatenation can
collide. -/
theorem c4_amended_fingerprint :
    (∀ (sha256 : List Char → List Char) (a b a2 b2 : List Char),
      a = a2 → b = b2 → hash_chunk sha256 a b = hash_chunk sha256 a2 b2)
    ∧ ∀ a b a2 b2 : List Char, a.length = a2.length →
        preHashInput a b = preHashInput a2 b2 → a = a2 ∧ b = b2 := by
  constructor
  · intro sha256 a b a2 b2 h1 h2
    rw [h1, h2]
  · intro a b a2 b2 hlen heq
    exact List.append_inj heq hlen

theorem c4_witness :
    hash_chunk id ['s'] ['t'] = hash_chunk id ['s'] ['t']
    ∧ (['a'] = ['a'] ∧ ['b'] = ['b']) :=
  ⟨c4_amended_fingerprint.1 id ['s'] ['t'] ['s'] ['t'] rfl rfl,
   c4_amended_fingerprint.2 ['a'] ['b'] ['a'] ['b'] rfl rfl⟩

/-- C4 counterexample: the pairs `("ab","c")` and `("a","bc")` differ in both
components yet have identical pre-hash input, hence identical fingerprint. -/
theorem c4_counterexample :
    hash_chunk id ['a','b'] ['c'] = hash_chunk id ['a'] ['b','c']
    ∧ ¬(['a','b'] = ['a'] ∧ ['c'] = ['b','c']) := by
  refine ⟨by decide, by decide⟩

/-- C8 (amended): the pipeline performs no configuration validation; even
under a violating configuration (`max_size < min_size`) the chunker runs
normally and produces its output. -/
theorem c8_amended_no_validation (text : List Char)
    (size overlap min_size max_size : Nat)
    (hviol : max_size < min_size) (hshort : text.length ≤ size) :
    smart_chunk_markdown text size overlap min_size max_size
      = [{ text := text, type := ChunkType.single_chunk, headers := none }] := by
  unfold smart_chunk_markdown
  rw [if_pos hshort]

theorem c8_witness :
    (3 : Nat) < 5 ∧ ['h','i'].length ≤ 10
    ∧ smart_chunk_markdown ['h','i'] 10 0 5 3
      = [{ text := ['h','i'], type := ChunkType.single_chunk, headers := none }] :=
  ⟨by decide, by decide,
   c8_amended_no_validation ['h','i'] 10 0 5 3 (by decide) (by decide)⟩

/-- C8 counterexample: with `min_size = 5 > max_size = 3` — a configuration
violating the invariant — the pipeline does not refuse to run: the chunker
still produces a chunk. -/
theorem c8_counterexample :
    (3 : Nat) < 5
    ∧ smart_chunk_markdown ['h','e','l','l','o'] 10 0 5 3
      = [{ text := ['h','e','l','l','o'], type := ChunkType.single_chunk,
           headers := none }]
    ∧ smart_chunk_markdown ['h','e','l','l','o'] 10 0 5 3 ≠ [] := by
  refine ⟨by decide, by decide, by decide⟩

/-- C3 counterexample: for a 10-character text with `target_size = 8` and
`overlap = 6`, the loop runs 8 iterations (starts `[0,2,4,5,6,7,8,9]`), more
than `ceil(10 / max(1, 8-6)) = 5`. -/
theorem c3_counterexample :
    windowStarts ['a','b','c','d','e','f','g','h','i','j'] 8 6 0
      = [0, 2, 4, 5, 6, 7, 8, 9]
    ∧ ¬ ((windowStarts ['a','b','c','d','e','f','g','h','i','j'] 8 6 0).length
        ≤ (['a','b','c','d','e','f','g','h','i','j'].length
            + (max 1 (8 - 6)) - 1) / (max 1 (8 - 6))) := by
  have he : windowStarts ['a','b','c','d','e','f','g','h','i','j'] 8 6 0
      = [0, 2, 4, 5, 6, 7, 8, 9] := by
    simp [windowStarts, windowNext, windowEnd2, windowEnd, searchEnd, isSentPunct]
  refine ⟨he, ?_⟩
  rw [he]
  decide

/-- C2: at the failing input, the window `"ab. c"` contains sentence
punctuation and its right edge is not the end of the text, yet the emitted
windowed chunk is the full window `"ab. c"` — not shrunk to end at the
`'.'` — because `last_sentence.end()` is the window's length, making the
adjustment a no-op. -/
theorem c2_sentence_boundary_noop :
    (windowLoop ['a','b','.',' ','c','d','e','f','g','h'] (some []) 5 0 1 0).map
      Chunk.text = [['a','b','.',' ','c'], ['d','e','f','g','h']]
    ∧ (['a','b','.',' ','c'].any isSentPunct = true)
    ∧ windowEnd ['a','b','.',' ','c','d','e','f','g','h'] 5 0 = 5
    ∧ 5 < (['a','b','.',' ','c','d','e','f','g','h'] : List Char).length := by
  refine ⟨?_, by decide, by decide, by decide⟩
  simp [windowLoop, windowNext, windowCut, windowEnd2, windowEnd, searchEnd,
    isSentPunct, pyStrip, pyIsSpace]

theorem c1_witness :
    (1 : Nat) < 5 ∧ (5 : Nat) ≤ 5
    ∧ (({ text := ['h','i'], type := ChunkType.single_chunk, headers := none } : Chunk)
        ∈ smart_chunk_markdown ['h','i'] 5 0 1 5)
    ∧ (pyStrip ['h','i']).length ≤ 5 :=
  ⟨by decide, by decide, by decide,
   c1_amended_upper_bound ['h','i'] 5 0 1 5 (by decide) (by decide)
     { text := ['h','i'], type := ChunkType.single_chunk, headers := none }
     (by decide)⟩

/-- C1 counterexample: with the valid configuration
`min_size = 4 < target_size = 5 ≤ max_size = 10` and the 6-character document
`"abc   "` (longer than `target_size`), the chunker emits the chunk `"abc"`,
whose trimmed length 3 is below `min_size`: the `min_size` test is applied to
the untrimmed accumulator (length 8), not to the stored trimmed text. -/
theorem c1_counterexample :
    ((4 : Nat) < 5 ∧ (5 : Nat) ≤ 10)
    ∧ ¬ ((['a','b','c',' ',' ',' '] : List Char).length ≤ 5)
    ∧ smart_chunk_markdown ['a','b','c',' ',' ',' '] 5 0 4 10
      = [{ text := ['a','b','c'], type := ChunkType.final, headers := some [] }]
    ∧ (pyStrip ['a','b','c']).length < 4 := by
  refine ⟨⟨by decide, by decide⟩, by decide, ?_, by decide⟩
  simp [smart_chunk_markdown, reSplitHeader, reSplitGo, headerMatchLen,
    buildFold, buildStep, finalFlush, windowPass, reMatchHeader,
    pyStrip, pyIsSpace, sentenceSplit, sentSplitGo, isSentPunct, fixedSlices,
    tempStep]

theorem c9_witness :
    ((5 : Nat) < (['x','\n','#','#',' ','S','\n','a','b','\n','#','#',' ','T','\n','z'] : List Char).length)
    ∧ reSplitHeader ['x','\n','#','#',' ','S','\n','a','b','\n','#','#',' ','T','\n','z']
        = [['x','\n']] ++ ['#','#',' ','S'] :: ([['\n','a','b','\n']] ++ [['#','#',' ','T'], ['\n','z']])
    ∧ reMatchHeader ['#','#',' ','S'] = true
    ∧ (∀ s ∈ [['\n','a','b','\n']], reMatchHeader s = false)
    ∧ ((buildStep 5 1 50 ([['x','\n']].foldl (buildStep 5 1 50) { chunks := [], current_chunk := [], current_headers := [] }) ['#','#',' ','S']).current_headers = [pyStrip ['#','#',' ','S']]
      ∧ ([['\n','a','b','\n']].foldl (buildStep 5 1 50) (buildStep 5 1 50 ([['x','\n']].foldl (buildStep 5 1 50) { chunks := [], current_chunk := [], current_headers := [] }) ['#','#',' ','S'])).current_headers = [pyStrip ['#','#',' ','S']]
      ∧ ∃ mid, ([['\n','a','b','\n']].foldl (buildStep 5 1 50) (buildStep 5 1 50 ([['x','\n']].foldl (buildStep 5 1 50) { chunks := [], current_chunk := [], current_headers := [] }) ['#','#',' ','S'])).chunks = (buildStep 5 1 50 ([['x','\n']].foldl (buildStep 5 1 50) { chunks := [], current_chunk := [], current_headers := [] }) ['#','#',' ','S']).chunks ++ mid
        ∧ (∀ c ∈ mid, c.headers = some [pyStrip ['#','#',' ','S']])
        ∧ (∀ c ∈ windowPass 5 0 1 50 mid, c.headers = some [pyStrip ['#','#',' ','S']])
        ∧ (∃ tail1, smart_chunk_markdown ['x','\n','#','#',' ','S','\n','a','b','\n','#','#',' ','T','\n','z'] 5 0 1 50
            = windowPass 5 0 1 50 (buildStep 5 1 50 ([['x','\n']].foldl (buildStep 5 1 50) { chunks := [], current_chunk := [], current_headers := [] }) ['#','#',' ','S']).chunks
              ++ (windowPass 5 0 1 50 mid ++ tail1))
        ∧ ([['#','#',' ','T'], ['\n','z']] = [] → ∃ out2,
            smart_chunk_markdown ['x','\n','#','#',' ','S','\n','a','b','\n','#','#',' ','T','\n','z'] 5 0 1 50
              = windowPass 5 0 1 50 (buildStep 5 1 50 ([['x','\n']].foldl (buildStep 5 1 50) { chunks := [], current_chunk := [], current_headers := [] }) ['#','#',' ','S']).chunks ++ out2
            ∧ ∀ c ∈ out2, c.headers = some [pyStrip ['#','#',' ','S']])
        ∧ (∀ hdr2 rest2, [['#','#',' ','T'], ['\n','z']] = hdr2 :: rest2 → ∃ fl tail2,
            (buildStep 5 1 50 ([['\n','a','b','\n']].foldl (buildStep 5 1 50) (buildStep 5 1 50 ([['x','\n']].foldl (buildStep 5 1 50) { chunks := [], current_chunk := [], current_headers := [] }) ['#','#',' ','S'])) hdr2).chunks
              = (buildStep 5 1 50 ([['x','\n']].foldl (buildStep 5 1 50) { chunks := [], current_chunk := [], current_headers := [] }) ['#','#',' ','S']).chunks ++ (mid ++ fl)
            ∧ (∀ c ∈ fl, c.headers = some [pyStrip ['#','#',' ','S']])
            ∧ smart_chunk_markdown ['x','\n','#','#',' ','S','\n','a','b','\n','#','#',' ','T','\n','z'] 5 0 1 50
              = windowPass 5 0 1 50 (buildStep 5 1 50 ([['x','\n']].foldl (buildStep 5 1 50) { chunks := [], current_chunk := [], current_headers := [] }) ['#','#',' ','S']).chunks
                ++ (windowPass 5 0 1 50 (mid ++ fl) ++ tail2)
            ∧ ∀ c ∈ windowPass 5 0 1 50 (mid ++ fl),
                c.headers = some [pyStrip ['#','#',' ','S']])) := by
  have hsec : reSplitHeader ['x','\n','#','#',' ','S','\n','a','b','\n','#','#',' ','T','\n','z']
      = [['x','\n']] ++ ['#','#',' ','S'] :: ([['\n','a','b','\n']] ++ [['#','#',' ','T'], ['\n','z']]) := by
    simp [reSplitHeader, reSplitGo, headerMatchLen, pyIsSpace]
  exact ⟨by decide, hsec, by decide, by decide,
    c9_header_propagation ['x','\n','#','#',' ','S','\n','a','b','\n','#','#',' ','T','\n','z'] 5 0 1 50 (by decide)
      [['x','\n']] ['#','#',' ','S'] [['\n','a','b','\n']] [['#','#',' ','T'], ['\n','z']] hsec (by decide) (by decide)
      _ _ _ rfl rfl rfl⟩
